import Mathlib

/-!
# ProductViewer — verification of the faceted filter & edit-reconciliation engine

Shallow embedding of the client logic in
`dist/ProductGridViewer.app/Contents/Resources/static/js/main.js`:

* the filter predicate of `applyFilters` (lines 65–91),
* the facet recalculation of `updateFilterOptions` (lines 94–122),
* the price comparator and sort of `sortByField` (lines 159–190),
* the commit flattening of `setupApplyChanges` (lines 234–262) and its
  fetch result handlers,
* the select2 `select2:select` / `select2:unselect` handlers (lines 9–41),
* the modal save handler of `setupModalListeners` (lines 427–473), in
  particular the price validation regex `^\d+(\.\d+)?$` and the
  `replace(/^\$/, '')` stripping of the price branch.

JavaScript objects are embedded as association lists in insertion order
(`alGet` / `alSet` mirror property read and property assignment: assignment
to an existing key updates it in place, assignment to a fresh key appends).
Record fields read through `getAttribute` / property access that may be
absent are `Option String` (`none` plays the role of `null`/`undefined`).
-/

namespace ProductViewer

/-- Property read on a JS object (first binding wins; objects have unique
keys, so this is just the binding). `none` is `undefined`. -/
def alGet (m : List (String × String)) (k : String) : Option String :=
  match m with
  | [] => none
  | kv :: rest => if kv.1 = k then some kv.2 else alGet rest k

/-- Property assignment on a JS object: an existing key keeps its position
and gets the new value, a fresh key is appended. -/
def alSet (m : List (String × String)) (k v : String) : List (String × String) :=
  match m with
  | [] => [(k, v)]
  | kv :: rest => if kv.1 = k then (k, v) :: rest else kv :: alSet rest k v

/-! ## Price validation (save handler, lines 432–438)

The save handler aborts when `rawPrice && !/^\d+(\.\d+)?$/.test(rawPrice)`:
the entered price must be empty or match `^\d+(\.\d+)?$`.  The regex is
embedded as the deterministic matcher it denotes (`\d` is `[0-9]`, which is
`Char.isDigit`). -/

/-- Matcher for the suffix `\d+$` that follows the decimal point: at least
one digit, then only digits. -/
def fracPart : List Char → Bool
  | [] => false
  | c :: cs => c.isDigit && cs.all (fun d => d.isDigit)

/-- Matcher for `\d*(\.\d+)?$`, the part of the price regex after its first
digit. -/
def afterDigits : List Char → Bool
  | [] => true
  | c :: cs => if c.isDigit then afterDigits cs else if c = '.' then fracPart cs else false

/-- Matcher for the full price regex `^\d+(\.\d+)?$`. -/
def priceRegexOk (cs : List Char) : Bool :=
  match cs with
  | [] => false
  | c :: cs => c.isDigit && afterDigits cs

/-- The save handler's acceptance condition with respect to price
(line 435): empty entry (`rawPrice` falsy) or a match of the regex. -/
def priceOk (s : String) : Bool :=
  s.data.isEmpty || priceRegexOk s.data

/-! Characterisation lemmas for the matcher. -/

theorem fracPart_iff (cs : List Char) :
    fracPart cs = true ↔ cs ≠ [] ∧ ∀ c ∈ cs, c.isDigit = true := by
  cases cs with
  | nil => simp [fracPart]
  | cons c cs =>
    simp [fracPart, List.all_eq_true]

theorem afterDigits_iff (cs : List Char) :
    afterDigits cs = true ↔
      ∃ ds fs : List Char, cs = ds ++ fs ∧ (∀ c ∈ ds, c.isDigit = true) ∧
        (fs = [] ∨ ∃ gs : List Char, fs = '.' :: gs ∧ gs ≠ [] ∧ ∀ c ∈ gs, c.isDigit = true) := by
  induction cs with
  | nil =>
    constructor
    · intro _
      exact ⟨[], [], by simp⟩
    · intro _
      rfl
  | cons c cs ih =>
    constructor
    · intro h
      by_cases hd : c.isDigit = true
      · rw [afterDigits, hd] at h
        simp only [if_true] at h
        obtain ⟨ds, fs, hcs, hds, hfs⟩ := ih.mp h
        exact ⟨c :: ds, fs, by simp [hcs], by simpa using ⟨hd, hds⟩, hfs⟩
      · rw [afterDigits] at h
        rw [if_neg hd] at h
        by_cases hdot : c = '.'
        · rw [if_pos hdot] at h
          obtain ⟨hne, hall⟩ := (fracPart_iff cs).mp h
          exact ⟨[], '.' :: cs, by simp [hdot], by simp, Or.inr ⟨cs, rfl, hne, hall⟩⟩
        · rw [if_neg hdot] at h
          exact absurd h (by simp)
    · rintro ⟨ds, fs, hcs, hds, hfs⟩
      cases ds with
      | nil =>
        simp only [List.nil_append] at hcs
        rcases hfs with hfs | ⟨gs, hgs, hne, hall⟩
        · exact absurd (hcs.trans hfs) (by simp)
        · rw [hcs, hgs]
          have hdotdig : ('.' : Char).isDigit = false := by decide
          rw [afterDigits, hdotdig]
          simp only [Bool.false_eq_true, if_false, if_pos rfl]
          exact (fracPart_iff gs).mpr ⟨hne, hall⟩
      | cons d ds =>
        simp only [List.cons_append, List.cons.injEq] at hcs
        obtain ⟨hcd, hcs⟩ := hcs
        have hdig : c.isDigit = true := hcd ▸ hds d (by simp)
        rw [afterDigits, hdig]
        simp only [if_true]
        exact ih.mpr ⟨ds, fs, hcs, fun x hx => hds x (by simp [hx]), hfs⟩

theorem priceRegexOk_iff (cs : List Char) :
    priceRegexOk cs = true ↔
      ∃ ds fs : List Char, cs = ds ++ fs ∧ ds ≠ [] ∧ (∀ c ∈ ds, c.isDigit = true) ∧
        (fs = [] ∨ ∃ gs : List Char, fs = '.' :: gs ∧ gs ≠ [] ∧ ∀ c ∈ gs, c.isDigit = true) := by
  cases cs with
  | nil =>
    constructor
    · intro h
      exact absurd h (by simp [priceRegexOk])
    · rintro ⟨ds, fs, hcs, hne, -, hfs⟩
      rcases List.append_eq_nil.mp hcs.symm with ⟨h1, -⟩
      exact absurd h1 hne
  | cons c cs =>
    rw [priceRegexOk]
    rw [Bool.and_eq_true]
    constructor
    · rintro ⟨hd, ha⟩
      obtain ⟨ds, fs, hcs, hds, hfs⟩ := (afterDigits_iff cs).mp ha
      refine ⟨c :: ds, fs, by simp [hcs], by simp, ?_, hfs⟩
      simpa using ⟨hd, hds⟩
    · rintro ⟨ds, fs, hcs, hne, hds, hfs⟩
      cases ds with
      | nil => exact absurd rfl hne
      | cons d ds =>
        simp only [List.cons_append, List.cons.injEq] at hcs
        obtain ⟨hcd, hcs⟩ := hcs
        refine ⟨hcd ▸ hds d (by simp), ?_⟩
        exact (afterDigits_iff cs).mpr ⟨ds, fs, hcs, fun x hx => hds x (by simp [hx]), hfs⟩

/-! ## Filter evaluation (`applyFilters`, lines 65–91)

A grid product element carries its current values as `data-*` attributes
(kept in sync with the record by `updateMainGridView`); `getAttribute`
returns `null` for a missing attribute, embedded as `none`.  For each
attribute the selected tokens `sel` hide the product when
`sel.length && !sel.includes('All') && !sel.includes(val)`; `includes`
of a `null` value is always false.  A surviving product is then checked
against the retail-flag group: when that selection is non-empty and does
not contain `All`, the product must have `data-<flag>` equal, case
folded, to `TRUE` for at least one selected flag. -/

structure JsProduct where
  attrs : List (String × String)
deriving DecidableEq, Repr

/-- `product.getAttribute('data-' + key)`. -/
def getAttr (p : JsProduct) (k : String) : Option String :=
  alGet p.attrs k

/-- `sel.includes(val)` where `val` may be `null` (then never a member,
since selected tokens are strings). -/
def selIncludesVal (sel : List String) (val : Option String) : Bool :=
  match val with
  | some v => sel.contains v
  | none => false

/-- `product.getAttribute('data-' + d)?.toUpperCase() === 'TRUE'`. -/
def flagTrue (p : JsProduct) (d : String) : Bool :=
  match getAttr p d with
  | some v => v.toUpper == "TRUE"
  | none => false

/-- One iteration of the `for (let key in filters)` loop: `true` when the
loop does not hide the product for this attribute. -/
def attrFilterPass (p : JsProduct) (key : String) (sel : List String) : Bool :=
  !(!sel.isEmpty && !sel.contains "All" && !selIncludesVal sel (getAttr p key))

/-- The visibility decision of `applyFilters` for one product. -/
def productShown (filters : List (String × List String)) (retail : List String)
    (p : JsProduct) : Bool :=
  (filters.all fun kv => attrFilterPass p kv.1 kv.2) &&
    (if !retail.isEmpty && !retail.contains "All"
     then retail.any fun d => flagTrue p d
     else true)

theorem attrFilterPass_iff (p : JsProduct) (key : String) (sel : List String) :
    attrFilterPass p key sel = true ↔
      sel = [] ∨ "All" ∈ sel ∨ ∃ v, getAttr p key = some v ∧ v ∈ sel := by
  cases hv : getAttr p key with
  | none => simp [attrFilterPass, selIncludesVal, hv, List.isEmpty_iff]
  | some v =>
    simp only [attrFilterPass, selIncludesVal, hv, List.isEmpty_iff, Bool.not_and, Bool.not_not,
      Bool.or_eq_true, Bool.not_eq_true', List.elem_iff, decide_eq_true_eq,
      decide_eq_false_iff_not, Option.some.injEq, List.isEmpty_eq_true]
    constructor
    · tauto
    · rintro (h | h | ⟨w, rfl, hw⟩) <;> tauto

/-! ## Facet recalculation (`updateFilterOptions`, lines 94–122)

It reads the products whose `display` style is not `none` — exactly those
`applyFilters` has just shown, i.e. `catalog.filter (productShown …)` —
and, per attribute, disables an option `v` unless some visible product has
value `v`; the option `All` is skipped (never disabled).  For the retail
group an option `f` (other than `All`) is disabled unless some visible
product satisfies the flag `f`. -/

/-- The post-filter visible set: products left displayed by `applyFilters`. -/
def visibleProducts (catalog : List JsProduct) (filters : List (String × List String))
    (retail : List String) : List JsProduct :=
  catalog.filter (productShown filters retail)

/-- Whether `updateFilterOptions` leaves option `v` of attribute `key`
enabled, given the visible products. -/
def optionEnabled (visible : List JsProduct) (key v : String) : Bool :=
  v == "All" || visible.any fun p => getAttr p key == some v

/-- Whether `updateFilterOptions` leaves retail option `f` enabled. -/
def flagEnabled (visible : List JsProduct) (f : String) : Bool :=
  f == "All" || visible.any fun p => flagTrue p f

/-- C4: a record is visible under `applyFilters` iff, for every attribute
entry that does not contain `All`, the record's current value for that
attribute is a member of the selected set (AND across attributes; a
missing value satisfies no concrete token and is never blocked by an
`All` entry), and, if the retail-flag entry does not contain `All`, at
least one selected flag is satisfied, a flag being satisfied when the
corresponding field equals the case-insensitive token `TRUE`.  The
hypotheses state the `FilterState` invariant that entries are never
empty. -/
theorem applyFilters_visible_iff
    (filters : List (String × List String)) (retail : List String) (p : JsProduct)
    (hf : ∀ kv ∈ filters, kv.2 ≠ []) (hr : retail ≠ []) :
    productShown filters retail p = true ↔
      ((∀ kv ∈ filters, "All" ∉ kv.2 → ∃ v, getAttr p kv.1 = some v ∧ v ∈ kv.2) ∧
       ("All" ∉ retail → ∃ d ∈ retail, flagTrue p d = true)) := by
  have h1 : (filters.all fun kv => attrFilterPass p kv.1 kv.2) = true ↔
      ∀ kv ∈ filters, "All" ∉ kv.2 → ∃ v, getAttr p kv.1 = some v ∧ v ∈ kv.2 := by
    rw [List.all_eq_true]
    constructor
    · intro h kv hkv hall
      rcases (attrFilterPass_iff p kv.1 kv.2).mp (h kv hkv) with he | hA | hv
      · exact absurd he (hf kv hkv)
      · exact absurd hA hall
      · exact hv
    · intro h kv hkv
      refine (attrFilterPass_iff p kv.1 kv.2).mpr ?_
      by_cases hA : "All" ∈ kv.2
      · exact Or.inr (Or.inl hA)
      · exact Or.inr (Or.inr (h kv hkv hA))
  have h2 : (if !retail.isEmpty && !retail.contains "All"
       then retail.any fun d => flagTrue p d else true) = true ↔
      ("All" ∉ retail → ∃ d ∈ retail, flagTrue p d = true) := by
    have he : retail.isEmpty = false := by
      cases retail with
      | nil => exact absurd rfl hr
      | cons a l => rfl
    by_cases hA : "All" ∈ retail
    · have hc : retail.contains "All" = true := List.elem_iff.mpr hA
      simp [hc, hA]
    · have hc : retail.contains "All" = false := by
        rw [Bool.eq_false_iff]
        intro h
        exact hA (List.elem_iff.mp h)
      simp [hc, he, List.any_eq_true, hA]
  rw [productShown, Bool.and_eq_true, h1, h2]

/-- Witness for `applyFilters_visible_iff` at a concrete catalog element
and filter state. -/
theorem applyFilters_visible_iff_witness :
    (∀ kv ∈ [("color", ["Red"])], kv.2 ≠ ([] : List String)) ∧ (["All"] : List String) ≠ [] ∧
      (productShown [("color", ["Red"])] ["All"] ⟨[("color", "Red")]⟩ = true ↔
        ((∀ kv ∈ [("color", ["Red"])], "All" ∉ kv.2 →
            ∃ v, getAttr ⟨[("color", "Red")]⟩ kv.1 = some v ∧ v ∈ kv.2) ∧
         ("All" ∉ (["All"] : List String) →
            ∃ d ∈ (["All"] : List String), flagTrue ⟨[("color", "Red")]⟩ d = true))) :=
  ⟨by decide, by decide,
    applyFilters_visible_iff [("color", ["Red"])] ["All"] ⟨[("color", "Red")]⟩
      (by decide) (by decide)⟩

/-- C5: after recomputation against the post-filter visible set, an option
`v ≠ All` of attribute `key` is enabled iff some visible product has
current value `v` for `key`; `All` is always enabled; and a retail flag
`f ≠ All` is enabled iff some visible product satisfies `f`. -/
theorem updateFilterOptions_enabled_iff
    (catalog : List JsProduct) (filters : List (String × List String))
    (retail : List String) (key v f : String) (hv : v ≠ "All") (hflag : f ≠ "All") :
    (optionEnabled (visibleProducts catalog filters retail) key v = true ↔
       ∃ p ∈ visibleProducts catalog filters retail, getAttr p key = some v) ∧
    optionEnabled (visibleProducts catalog filters retail) key "All" = true ∧
    (flagEnabled (visibleProducts catalog filters retail) f = true ↔
       ∃ p ∈ visibleProducts catalog filters retail, flagTrue p f = true) := by
  refine ⟨?_, by simp [optionEnabled], ?_⟩
  · simp [optionEnabled, hv, List.any_eq_true, beq_iff_eq]
  · simp [flagEnabled, hflag, List.any_eq_true]

/-- Witness for `updateFilterOptions_enabled_iff` at a concrete catalog,
filter state, option and flag. -/
theorem updateFilterOptions_enabled_iff_witness :
    ("Red" : String) ≠ "All" ∧ ("amazon" : String) ≠ "All" ∧
      ((optionEnabled (visibleProducts [⟨[("color", "Red")]⟩] [] ["All"]) "color" "Red" = true ↔
          ∃ p ∈ visibleProducts [⟨[("color", "Red")]⟩] [] ["All"],
            getAttr p "color" = some "Red") ∧
       optionEnabled (visibleProducts [⟨[("color", "Red")]⟩] [] ["All"]) "color" "All" = true ∧
       (flagEnabled (visibleProducts [⟨[("color", "Red")]⟩] [] ["All"]) "amazon" = true ↔
          ∃ p ∈ visibleProducts [⟨[("color", "Red")]⟩] [] ["All"], flagTrue p "amazon" = true)) :=
  ⟨by decide, by decide,
    updateFilterOptions_enabled_iff [⟨[("color", "Red")]⟩] [] ["All"] "color" "Red" "amazon"
      (by decide) (by decide)⟩

/-! ## Sort engine (`sortByField`, lines 159–190), price branch

For `field === 'price'` the comparator reads the `.grid-price` element's
text; when the element is missing the operand is the number `0`, otherwise
it is `parseFloat(text.replace(/[^0-9.]/g, ''))` — every character other
than a digit or `.` is stripped, then a decimal prefix is parsed.
`parseFloat` of a string with no leading decimal literal is `NaN`,
embedded as `none` (a parsed value is `some q : Option ℚ`; after the
strip only digits and dots remain, so no sign or exponent can occur).
The comparator returns `aNum - bNum` (ascending) or `bNum - aNum`
(descending); `Array.prototype.sort`'s `SortCompare` maps a negative
result to "before", a positive one to "after" and `NaN` (like `0`) to a
tie, and the engine's sort is stable, embedded as a stable insertion
sort. -/

/-- Value of a digit string read left to right, as `parseFloat` reads the
integer part. -/
def digitsToNat (ds : List Char) : Nat :=
  ds.foldl (fun n c => 10 * n + (c.toNat - '0'.toNat)) 0

/-- `parseFloat` on a string of digits and dots: a non-empty decimal
prefix `\d*(\.\d*)?` with at least one digit parses to its value, anything
else is `NaN` (`none`). -/
def parseFloatQ (cs : List Char) : Option ℚ :=
  let intPart := cs.takeWhile (fun c => c.isDigit)
  let rest := cs.dropWhile (fun c => c.isDigit)
  match rest with
  | '.' :: rest2 =>
    let frac := rest2.takeWhile (fun c => c.isDigit)
    if intPart.isEmpty && frac.isEmpty then none
    else some ((digitsToNat intPart : ℚ) + (digitsToNat frac : ℚ) / (10 : ℚ) ^ frac.length)
  | _ => if intPart.isEmpty then none else some (digitsToNat intPart : ℚ)

/-- `text.replace(/[^0-9.]/g, '')`. -/
def stripNonNumeric (cs : List Char) : List Char :=
  cs.filter (fun c => c.isDigit || c == '.')

/-- A grid item as the price comparator sees it: the text of its
`.grid-price` child, or `none` when that element is absent. -/
structure GridItem where
  gridPrice : Option String
deriving DecidableEq, Repr

/-- The numeric sort key of an item: `0` for a missing element, otherwise
the parse of the stripped text (`none` = `NaN`). -/
def priceKey (it : GridItem) : Option ℚ :=
  match it.gridPrice with
  | none => some 0
  | some s => parseFloatQ (stripNonNumeric s.data)

/-- The comparator value the engine acts on: the comparator returns
`aNum - bNum` (ascending) or `bNum - aNum` (descending) and `SortCompare`
consumes only its sign — negative, positive, or zero, with a `NaN`
comparator result (either operand `NaN`) sent to `0`, a tie.  The sign of
the exact difference is written as the order comparison it denotes. -/
def jsSortCompareNum (dir : String) (a b : Option ℚ) : Int :=
  match a, b with
  | some x, some y =>
    if dir = "asc" then (if x < y then -1 else if y < x then 1 else 0)
    else (if y < x then -1 else if x < y then 1 else 0)
  | _, _ => 0

/-- Stable insertion with respect to a JS comparator: an element moves
before the first earlier element it compares strictly less than, and
stays after elements it ties with. -/
def insertCmp {α : Type} (cmp : α → α → Int) (x : α) : List α → List α
  | [] => [x]
  | y :: ys => if cmp x y < 0 then x :: y :: ys else y :: insertCmp cmp x ys

/-- A stable sort driven by a JS comparator, as `Array.prototype.sort`
performs on the engines this code targets. -/
def jsStableSort {α : Type} (cmp : α → α → Int) (l : List α) : List α :=
  l.foldl (fun acc x => insertCmp cmp x acc) []

/-- `sortByField(field, dir)` restricted to `field === 'price'`. -/
def sortByFieldPrice (dir : String) (items : List GridItem) : List GridItem :=
  jsStableSort (fun a b => jsSortCompareNum dir (priceKey a) (priceKey b)) items

/-- C2, counterexample: a price text with no digits does not sort as zero
— its key is `NaN` (`none`), not `0` — and ascending price sort of
`["$10", "$2", "abc"]` yields `["$2", "$10", "abc"]`, not the claimed
`["abc", "$2", "$10"]`. -/
theorem sortByFieldPrice_claim_counterexample :
    priceKey ⟨some "abc"⟩ = none ∧ priceKey ⟨some "abc"⟩ ≠ some 0 ∧
    sortByFieldPrice "asc" [⟨some "$10"⟩, ⟨some "$2"⟩, ⟨some "abc"⟩] =
      [⟨some "$2"⟩, ⟨some "$10"⟩, ⟨some "abc"⟩] ∧
    sortByFieldPrice "asc" [⟨some "$10"⟩, ⟨some "$2"⟩, ⟨some "abc"⟩] ≠
      [⟨some "abc"⟩, ⟨some "$2"⟩, ⟨some "$10"⟩] := by
  refine ⟨by decide, by decide, by decide, by decide⟩

/-- C2, amended: price sorting compares the numbers obtained by stripping
every character other than a digit or `.` and parsing a decimal prefix; a
record whose price element is missing sorts as zero, while a record whose
price text is unparseable gets the key `NaN`, every comparison against it
is a tie, and the stable sort leaves it in place: ascending sort of
`["$10", "$2", "abc"]` yields `["$2", "$10", "abc"]`. -/
theorem sortByFieldPrice_amended :
    priceKey ⟨none⟩ = some 0 ∧
    priceKey ⟨some "abc"⟩ = none ∧
    (∀ (dir : String) (k : Option ℚ),
      jsSortCompareNum dir none k = 0 ∧ jsSortCompareNum dir k none = 0) ∧
    sortByFieldPrice "asc" [⟨some "$10"⟩, ⟨some "$2"⟩, ⟨some "abc"⟩] =
      [⟨some "$2"⟩, ⟨some "$10"⟩, ⟨some "abc"⟩] := by
  refine ⟨by decide, by decide, ?_, by decide⟩
  intro dir k
  cases k <;> simp [jsSortCompareNum]

/-! ## Edit tracker: the modal save handler (lines 427–473)

State touched by the `saveModalChanges` click handler: the global
`pendingChanges` object (record index → field name → new value) and the
record `currentProductInModal`.  The handler

1. ensures `pendingChanges[idx]` exists (`pendingChanges[idx] || {}`) —
   note this happens *before* validation;
2. aborts with an alert when the entered price is non-empty and fails the
   regex;
3. records the description when it differs from the record's *current*
   description, and updates the record;
4. records the price — with a single leading `$` stripped
   (`replace(/^\$/, '')`) — when the entered text differs from the
   record's current price, and stores the *unstripped* text in the record;
5. for every attribute row, records the effective new value (the select's
   value, or the free-text input when `__NEW_VALUE__` is chosen) when it
   differs from the record's current attribute value. -/

structure Product where
  original_index : Nat
  description : String
  price : String
  attributes : List (String × String)
  original_description : String
  original_price : String
  original_attributes : List (String × String)
deriving DecidableEq, Repr

/-- `pendingChanges`: a JS object keyed by record index whose values are
objects keyed by field name. -/
abbrev Pending := List (Nat × List (String × String))

def pendingLookup (pending : Pending) (idx : Nat) : Option (List (String × String)) :=
  match pending with
  | [] => none
  | e :: rest => if e.1 = idx then some e.2 else pendingLookup rest idx

/-- `pendingChanges[idx] = pendingChanges[idx] || {}` (every stored object
is truthy, so an existing entry — even an empty one — is kept). -/
def ensurePending (pending : Pending) (idx : Nat) : Pending :=
  match pendingLookup pending idx with
  | some _ => pending
  | none => pending ++ [(idx, [])]

/-- `pendingChanges[idx][field] = v`; the handler only runs this after
ensuring the entry for `idx` exists. -/
def pendingSet (pending : Pending) (idx : Nat) (field v : String) : Pending :=
  pending.map fun e => if e.1 = idx then (e.1, alSet e.2 field v) else e

/-- Read `pendingChanges[idx]?.[field]`. -/
def pendingGet (pending : Pending) (idx : Nat) (field : String) : Option String :=
  match pendingLookup pending idx with
  | some m => alGet m field
  | none => none

/-- `newPrice.replace(/^\$/, '')`: one leading `$` removed. -/
def stripDollar (s : String) : String :=
  match s.data with
  | '$' :: rest => String.mk rest
  | _ => s

/-- What the operator entered in the modal: the trimmed description text,
the trimmed price text, and per attribute row the effective new value
(the select's value, or the trimmed free-text input when the
`__NEW_VALUE__` sentinel is chosen). -/
structure ModalState where
  desc : String
  price : String
  attrVals : List (String × String)
deriving DecidableEq, Repr

structure SaveOutcome where
  validationError : Bool
  pending : Pending
  product : Product
deriving DecidableEq, Repr

/-- One iteration of the attribute loop (lines 457–469). -/
def attrStep (idx : Nat) (st : Pending × Product) (av : String × String) :
    Pending × Product :=
  if alGet st.2.attributes av.1 ≠ some av.2 then
    (pendingSet st.1 idx av.1 av.2,
     { st.2 with attributes := alSet st.2.attributes av.1 av.2 })
  else st

/-- The `saveModalChanges` click handler (lines 427–473). -/
def saveClick (pending : Pending) (prod : Product) (modal : ModalState) : SaveOutcome :=
  let idx := prod.original_index
  let p1 := ensurePending pending idx
  if !priceOk modal.price then
    ⟨true, p1, prod⟩
  else
    let st1 : Pending × Product :=
      if modal.desc ≠ prod.description then
        (pendingSet p1 idx "description" modal.desc, { prod with description := modal.desc })
      else (p1, prod)
    let st2 : Pending × Product :=
      if modal.price ≠ st1.2.price then
        (pendingSet st1.1 idx "price" (stripDollar modal.price),
         { st1.2 with price := modal.price })
      else st1
    let st3 : Pending × Product := modal.attrVals.foldl (attrStep idx) st2
    ⟨false, st3.1, st3.2⟩

/-! Supporting lemmas about the object embedding. -/

theorem alGet_alSet_self (m : List (String × String)) (k v : String) :
    alGet (alSet m k v) k = some v := by
  induction m with
  | nil => simp [alSet, alGet]
  | cons kv rest ih =>
    by_cases h : kv.1 = k
    · simp [alSet, h, alGet]
    · simp [alSet, h, alGet, ih]

theorem alGet_alSet_ne (m : List (String × String)) (k v k2 : String) (h : k ≠ k2) :
    alGet (alSet m k v) k2 = alGet m k2 := by
  induction m with
  | nil => simp [alSet, alGet, h]
  | cons kv rest ih =>
    by_cases hk : kv.1 = k
    · simp [alSet, hk, alGet, h, ih]
    · simp [alSet, hk, alGet, ih]

theorem pendingLookup_append_of_none (pending : Pending) (idx : Nat)
    (m : List (String × String)) (h : pendingLookup pending idx = none) :
    pendingLookup (pending ++ [(idx, m)]) idx = some m := by
  induction pending with
  | nil => simp [pendingLookup]
  | cons e rest ih =>
    rw [pendingLookup] at h
    by_cases he : e.1 = idx
    · rw [if_pos he] at h
      exact absurd h (by simp)
    · rw [if_neg he] at h
      simpa [pendingLookup, he] using ih h

theorem pendingLookup_ensure_isSome (pending : Pending) (idx : Nat) :
    (pendingLookup (ensurePending pending idx) idx).isSome = true := by
  unfold ensurePending
  cases h : pendingLookup pending idx with
  | some m => simp [h]
  | none => simp [pendingLookup_append_of_none pending idx [] h]

theorem pendingLookup_pendingSet_self (pending : Pending) (idx : Nat) (field v : String) :
    pendingLookup (pendingSet pending idx field v) idx =
      (pendingLookup pending idx).map fun m => alSet m field v := by
  induction pending with
  | nil => simp [pendingSet, pendingLookup]
  | cons e rest ih =>
    by_cases he : e.1 = idx
    · simp [pendingSet, pendingLookup, he]
    · simp only [pendingSet, List.map_cons, if_neg he, pendingLookup]
      exact ih

theorem pendingGet_pendingSet_self (pending : Pending) (idx : Nat) (field v : String)
    (h : (pendingLookup pending idx).isSome = true) :
    pendingGet (pendingSet pending idx field v) idx field = some v := by
  unfold pendingGet
  rw [pendingLookup_pendingSet_self]
  cases hm : pendingLookup pending idx with
  | none => rw [hm] at h; exact absurd h (by simp)
  | some m => simp [alGet_alSet_self]

theorem pendingGet_pendingSet_ne_field (pending : Pending) (idx : Nat) (field v g : String)
    (hfg : field ≠ g) :
    pendingGet (pendingSet pending idx field v) idx g = pendingGet pending idx g := by
  unfold pendingGet
  rw [pendingLookup_pendingSet_self]
  cases pendingLookup pending idx with
  | none => simp
  | some m => simp [alGet_alSet_ne _ _ _ _ hfg]

theorem pendingLookup_pendingSet_isSome (pending : Pending) (idx : Nat) (field v : String) :
    (pendingLookup (pendingSet pending idx field v) idx).isSome =
      (pendingLookup pending idx).isSome := by
  rw [pendingLookup_pendingSet_self]
  cases pendingLookup pending idx <;> simp

/-- The attribute loop never touches the pending binding of a field not
named by any row, nor the record's price. -/
theorem attrLoop_keeps_field (idx : Nat) (l : List (String × String)) (g : String)
    (hl : ∀ av ∈ l, av.1 ≠ g) (st : Pending × Product) :
    pendingGet (l.foldl (attrStep idx) st).1 idx g = pendingGet st.1 idx g ∧
    (l.foldl (attrStep idx) st).2.price = st.2.price := by
  induction l generalizing st with
  | nil => exact ⟨rfl, rfl⟩
  | cons av rest ih =>
    have hav : av.1 ≠ g := hl av (by simp)
    have hrest : ∀ x ∈ rest, x.1 ≠ g := fun x hx => hl x (by simp [hx])
    rw [List.foldl_cons]
    obtain ⟨h1, h2⟩ := ih hrest (attrStep idx st av)
    refine ⟨?_, ?_⟩
    · rw [h1]
      unfold attrStep
      split
      · exact pendingGet_pendingSet_ne_field _ _ _ _ _ hav
      · rfl
    · rw [h2]
      unfold attrStep
      split <;> rfl

/-- A string accepted by the price validation cannot begin with `$`, so
the `replace(/^\$/, '')` of the price branch has no effect on it. -/
theorem stripDollar_of_priceOk (s : String) (h : priceOk s = true) : stripDollar s = s := by
  unfold stripDollar
  cases hd : s.data with
  | nil => rfl
  | cons c cs =>
    have hc : c ≠ '$' := by
      intro hc
      rw [priceOk, hd, hc] at h
      have hreg : priceRegexOk ('$' :: cs) = false := by
        rw [priceRegexOk]
        simp [show ('$' : Char).isDigit = false from by decide]
      simp [hreg] at h
    split
    · rename_i rest heq
      injection heq with h1 h2
      exact absurd h1 hc
    · rfl

/-- C6: a save is accepted with respect to price iff the raw entered
price string is empty or consists of one or more digits optionally
followed by a single decimal point and one or more fractional digits; the
save handler reports a validation error exactly otherwise; `"12.50"` is
accepted while `"$12"`, `"abc"` and `"12.5.6"` are rejected. -/
theorem priceValidation_spec :
    (∀ s : String, priceOk s = true ↔
      (s.data = [] ∨ ∃ ds fs : List Char, s.data = ds ++ fs ∧ ds ≠ [] ∧
        (∀ c ∈ ds, c.isDigit = true) ∧
        (fs = [] ∨ ∃ gs : List Char, fs = '.' :: gs ∧ gs ≠ [] ∧ ∀ c ∈ gs, c.isDigit = true))) ∧
    (∀ (pending : Pending) (prod : Product) (modal : ModalState),
      (saveClick pending prod modal).validationError = !priceOk modal.price) ∧
    priceOk "12.50" = true ∧ priceOk "$12" = false ∧ priceOk "abc" = false ∧
    priceOk "12.5.6" = false := by
  refine ⟨?_, ?_, by decide, by decide, by decide, by decide⟩
  · intro s
    rw [priceOk, Bool.or_eq_true, priceRegexOk_iff]
    simp [List.isEmpty_iff]
  · intro pending prod modal
    by_cases h : priceOk modal.price
    · simp [saveClick, h]
    · simp only [Bool.not_eq_true] at h
      simp [saveClick, h]

/-- C1 (code bug at a concrete run): with original description `"a"`,
saving the edit `"a" → "b"` and then saving the revert `"b" → "a"` leaves
`pendingChanges[0].description = "a"` even though the record's current
description again equals its original — a pending entry exists while
current = original, because the handler diffs against the current value
and never deletes an entry. -/
theorem pendingChanges_stale_entry_after_revert :
    ((saveClick (saveClick [] ⟨0, "a", "", [], "a", "", []⟩ ⟨"b", "", []⟩).pending
        (saveClick [] ⟨0, "a", "", [], "a", "", []⟩ ⟨"b", "", []⟩).product
        ⟨"a", "", []⟩).product.description =
      (⟨0, "a", "", [], "a", "", []⟩ : Product).original_description) ∧
    pendingGet ((saveClick (saveClick [] ⟨0, "a", "", [], "a", "", []⟩ ⟨"b", "", []⟩).pending
        (saveClick [] ⟨0, "a", "", [], "a", "", []⟩ ⟨"b", "", []⟩).product
        ⟨"a", "", []⟩).pending) 0 "description" = some "a" := by
  exact ⟨by decide, by decide⟩

/-- C3, counterexample: with an invalid price `"xx"` entered, the save
aborts entirely — the description edit `"a" → "b"` made in the same modal
is *not* recorded and the record is untouched — whereas the same save with
the price left unedited records `description = "b"`; so the behaviour is
not "as if the price had not been edited". -/
theorem saveClick_invalid_price_blocks_description :
    (saveClick [] ⟨0, "a", "1", [], "a", "1", []⟩ ⟨"b", "xx", []⟩).validationError = true ∧
    pendingGet (saveClick [] ⟨0, "a", "1", [], "a", "1", []⟩ ⟨"b", "xx", []⟩).pending
      0 "description" = none ∧
    (saveClick [] ⟨0, "a", "1", [], "a", "1", []⟩ ⟨"b", "xx", []⟩).product.description = "a" ∧
    pendingGet (saveClick [] ⟨0, "a", "1", [], "a", "1", []⟩ ⟨"b", "1", []⟩).pending
      0 "description" = some "b" := by
  exact ⟨by decide, by decide, by decide, by decide⟩

/-- C3, amended: a malformed price at save time aborts the whole save for
that record: a validation message is reported, none of the modal's edits
(description, price or attributes) is recorded, the record is unchanged,
and the pending change set is unchanged except that an (empty) entry
object for the record id has been ensured before validation ran. -/
theorem saveClick_invalid_price_aborts_whole_save
    (pending : Pending) (prod : Product) (modal : ModalState)
    (h : priceOk modal.price = false) :
    saveClick pending prod modal =
      ⟨true, ensurePending pending prod.original_index, prod⟩ := by
  simp [saveClick, h]

/-- Witness for `saveClick_invalid_price_aborts_whole_save`. -/
theorem saveClick_invalid_price_aborts_whole_save_witness :
    priceOk "xx" = false ∧
      saveClick [] ⟨0, "a", "1", [], "a", "1", []⟩ ⟨"b", "xx", []⟩ =
        ⟨true, ensurePending [] 0, ⟨0, "a", "1", [], "a", "1", []⟩⟩ :=
  ⟨by decide,
    saveClick_invalid_price_aborts_whole_save [] ⟨0, "a", "1", [], "a", "1", []⟩
      ⟨"b", "xx", []⟩ (by decide)⟩

/-- C10, counterexample: an entered price beginning with `$` never
reaches the price branch — `"$12"` fails validation, the save aborts, no
pending price value is stored and the record keeps its old price — so the
claimed divergence between the pending value and the record's current
price never materialises.  (The branch itself would indeed strip one
leading dollar: `stripDollar "$12" = "12"`.) -/
theorem saveClick_dollar_price_counterexample :
    (saveClick [] ⟨0, "a", "10", [], "a", "10", []⟩ ⟨"a", "$12", []⟩).validationError = true ∧
    pendingGet (saveClick [] ⟨0, "a", "10", [], "a", "10", []⟩ ⟨"a", "$12", []⟩).pending
      0 "price" = none ∧
    (saveClick [] ⟨0, "a", "10", [], "a", "10", []⟩ ⟨"a", "$12", []⟩).product.price = "10" ∧
    stripDollar "$12" = "12" := by
  exact ⟨by decide, by decide, by decide, by decide⟩

/-- C10, amended: the price branch stores the entered text with a single
leading `$` stripped and keeps the raw text in the record, but validation
only lets empty or purely numeric text through, which never begins with
`$`; hence whenever a save records a price edit the stripping is the
identity and the stored pending value equals the record's new current
price. -/
theorem saveClick_accepted_price_pending
    (pending : Pending) (prod : Product) (modal : ModalState)
    (hok : priceOk modal.price = true)
    (hne : modal.price ≠ prod.price)
    (hattr : ∀ av ∈ modal.attrVals, av.1 ≠ "price") :
    pendingGet (saveClick pending prod modal).pending prod.original_index "price" =
      some modal.price ∧
    (saveClick pending prod modal).product.price = modal.price ∧
    stripDollar modal.price = modal.price := by
  have hstrip : stripDollar modal.price = modal.price := stripDollar_of_priceOk _ hok
  set idx := prod.original_index with hidx
  have hsome1 : (pendingLookup (ensurePending pending idx) idx).isSome = true :=
    pendingLookup_ensure_isSome pending idx
  rw [saveClick]
  rw [hok]
  simp only [Bool.not_true, Bool.false_eq_true, if_false]
  set st1 : Pending × Product :=
    if modal.desc ≠ prod.description then
      (pendingSet (ensurePending pending idx) idx "description" modal.desc,
       { prod with description := modal.desc })
    else (ensurePending pending idx, prod) with hst1
  have hst1p : st1.2.price = prod.price := by
    rw [hst1]
    split <;> rfl
  have hst1some : (pendingLookup st1.1 idx).isSome = true := by
    rw [hst1]
    split
    · rw [pendingLookup_pendingSet_isSome]
      exact hsome1
    · exact hsome1
  have hcond : modal.price ≠ st1.2.price := by
    rw [hst1p]
    exact hne
  rw [if_pos hcond]
  obtain ⟨hkeep, hkeepPrice⟩ := attrLoop_keeps_field idx modal.attrVals "price" hattr
    (pendingSet st1.1 idx "price" (stripDollar modal.price), { st1.2 with price := modal.price })
  refine ⟨?_, ?_, hstrip⟩
  · rw [hkeep, pendingGet_pendingSet_self _ _ _ _ hst1some, hstrip]
  · rw [hkeepPrice]

/-- Witness for `saveClick_accepted_price_pending`. -/
theorem saveClick_accepted_price_pending_witness :
    priceOk "12" = true ∧ ("12" : String) ≠ "10" ∧
    (∀ av ∈ ([] : List (String × String)), av.1 ≠ "price") ∧
      (pendingGet (saveClick [] ⟨0, "a", "10", [], "a", "10", []⟩ ⟨"a", "12", []⟩).pending
          0 "price" = some "12" ∧
       (saveClick [] ⟨0, "a", "10", [], "a", "10", []⟩ ⟨"a", "12", []⟩).product.price = "12" ∧
       stripDollar "12" = "12") :=
  ⟨by decide, by decide, by decide,
    saveClick_accepted_price_pending [] ⟨0, "a", "10", [], "a", "10", []⟩ ⟨"a", "12", []⟩
      (by decide) (by decide) (by decide)⟩

/-! ## Commit flattening and submission (`setupApplyChanges`, lines 234–262)

`Object.entries(pendingChanges).flatMap(([idx, attrs]) =>
Object.entries(attrs).map(([attr, val]) => ({original_index, attribute,
newValue})))`; when the flattened list is empty the handler alerts
`'No changes to apply!'` and returns without calling `fetch`; otherwise it
POSTs the list.  The fetch result handlers alert the outcome; only the
success path triggers a page reload — in no handler is `pendingChanges`
reassigned or mutated. -/

/-- One element of `changesToSend`.  The field named `attribute` in the
JSON payload is called `attr` here (`attribute` is a Lean keyword). -/
structure ChangeTuple where
  original_index : Nat
  attr : String
  newValue : String
deriving DecidableEq, Repr

/-- The `changesToSend` flattening. -/
def flattenPending (pending : Pending) : List ChangeTuple :=
  (pending.map fun e => e.2.map fun av => ChangeTuple.mk e.1 av.1 av.2).flatten

/-- What the apply-changes click does before any network activity:
either it stops with the "No changes to apply!" alert, or it submits the
flattened payload to the persistence endpoint. -/
inductive ApplyOutcome
  | nothingToSubmit
  | submitted (payload : List ChangeTuple)
deriving DecidableEq, Repr

def applyChangesClick (pending : Pending) : ApplyOutcome :=
  let cs := flattenPending pending
  if cs.isEmpty then ApplyOutcome.nothingToSubmit else ApplyOutcome.submitted cs

/-- Outcome of the persistence call as the handlers see it: a parsed JSON
reply `{success, message}` or a transport error caught by `.catch`. -/
inductive FetchResult
  | ok (success : Bool) (message : String)
  | networkError (err : String)

/-- Effect of the fetch handlers: the alert text surfaced to the
operator, the `pendingChanges` object afterwards, and whether a page
reload was initiated (only on success). -/
structure FetchHandled where
  alertMsg : String
  pending : Pending
  reloaded : Bool
deriving DecidableEq, Repr

def handleFetchResult (pending : Pending) (r : FetchResult) : FetchHandled :=
  match r with
  | FetchResult.ok true _ => ⟨"✅ Changes have been applied successfully.", pending, true⟩
  | FetchResult.ok false m => ⟨"Error: " ++ m, pending, false⟩
  | FetchResult.networkError e => ⟨"Request failed: " ++ e, pending, false⟩

/-- C7: flattening yields exactly one `{recordId, field, value}` tuple per
pending field entry — a tuple is in the result iff the pending set holds
that binding, and the length is the total number of field entries — the
empty pending set flattens to `[]`, and the commit click submits nothing
(reports "nothing to apply", makes no persistence call) exactly when the
flattened result is empty. -/
theorem flattenPending_spec :
    flattenPending [] = [] ∧
    (∀ pending : Pending,
      applyChangesClick pending = ApplyOutcome.nothingToSubmit ↔
        flattenPending pending = []) ∧
    (∀ (pending : Pending) (r : Nat) (f v : String),
      ChangeTuple.mk r f v ∈ flattenPending pending ↔
        ∃ attrs, (r, attrs) ∈ pending ∧ (f, v) ∈ attrs) ∧
    (∀ pending : Pending,
      (flattenPending pending).length = (pending.map fun e => e.2.length).sum) := by
  refine ⟨rfl, ?_, ?_, ?_⟩
  · intro pending
    by_cases h : flattenPending pending = []
    · simp [applyChangesClick, h]
    · simp [applyChangesClick, h, List.isEmpty_iff]
  · intro pending r f v
    rw [flattenPending, List.mem_flatten]
    constructor
    · rintro ⟨l, hl, hm⟩
      rw [List.mem_map] at hl
      obtain ⟨e, he, rfl⟩ := hl
      rw [List.mem_map] at hm
      obtain ⟨av, hav, heq⟩ := hm
      rw [ChangeTuple.mk.injEq] at heq
      obtain ⟨h1, h2, h3⟩ := heq
      refine ⟨e.2, ?_, ?_⟩
      · rw [← h1, Prod.mk.eta]
        exact he
      · rw [← h2, ← h3, Prod.mk.eta]
        exact hav
    · rintro ⟨attrs, hpa, hfv⟩
      refine ⟨attrs.map fun av => ChangeTuple.mk r av.1 av.2, ?_, ?_⟩
      · rw [List.mem_map]
        exact ⟨(r, attrs), hpa, rfl⟩
      · rw [List.mem_map]
        exact ⟨(f, v), hfv, rfl⟩
  · intro pending
    rw [flattenPending, List.length_flatten, List.map_map]
    have hcomp : (List.length ∘ fun e : Nat × List (String × String) =>
        e.2.map fun av => ChangeTuple.mk e.1 av.1 av.2) =
          fun e : Nat × List (String × String) => e.2.length := by
      funext e
      simp
    rw [hcomp]

/-- C9: when the persistence call reports failure or a transport error,
the operator sees an alert carrying the server-provided message
(`'Error: ' + data.message`) or the transport error text
(`'Request failed: ' + err`), no reload happens, and `pendingChanges` is
left exactly as it was — in particular a retry would flatten the very
same payload. -/
theorem fetchFailure_preserves_pending :
    ∀ (pending : Pending) (m e : String),
      handleFetchResult pending (FetchResult.ok false m) =
        ⟨"Error: " ++ m, pending, false⟩ ∧
      handleFetchResult pending (FetchResult.networkError e) =
        ⟨"Request failed: " ++ e, pending, false⟩ ∧
      flattenPending (handleFetchResult pending (FetchResult.ok false m)).pending =
        flattenPending pending ∧
      flattenPending (handleFetchResult pending (FetchResult.networkError e)).pending =
        flattenPending pending :=
  fun _ _ _ => ⟨rfl, rfl, rfl, rfl⟩

/-! ## Filter selection handlers (select2, lines 9–41)

On `select2:select` the widget has already added the picked token to the
selection; the handler then either resets the whole entry to `['All']`
(when `All` itself was picked) or removes `All` from the selection.  On
`select2:unselect` the widget has already removed the token; when the
selection became empty the handler resets it to `['All']`. -/

/-- The `select2:select` handler: `vals` is the selection including the
picked token. -/
def selectEvent (entry : List String) (picked : String) : List String :=
  if picked = "All" then ["All"]
  else
    (if entry.contains picked then entry else entry ++ [picked]).filter
      fun v => !(v == "All")

/-- The `select2:unselect` handler: the widget removed the token, the
handler resets an emptied selection to `['All']`. -/
def unselectEvent (entry : List String) (picked : String) : List String :=
  let vals := entry.erase picked
  if vals.isEmpty then ["All"] else vals

inductive FilterEvent
  | select (v : String)
  | unselect (v : String)

def stepEntry (entry : List String) : FilterEvent → List String
  | FilterEvent.select v => selectEvent entry v
  | FilterEvent.unselect v => unselectEvent entry v

def runEvents (entry : List String) (es : List FilterEvent) : List String :=
  es.foldl stepEntry entry

/-- The `FilterState` entry invariant: never empty, and the sentinel
`All` appears only alone. -/
def entryInvariant (entry : List String) : Prop :=
  entry ≠ [] ∧ ("All" ∈ entry → entry = ["All"])

theorem stepEntry_preserves (entry : List String) (e : FilterEvent)
    (h : entryInvariant entry) : entryInvariant (stepEntry entry e) := by
  obtain ⟨hne, hall⟩ := h
  cases e with
  | select v =>
    rw [stepEntry, selectEvent]
    by_cases hv : v = "All"
    · rw [if_pos hv]
      exact ⟨by simp, fun _ => rfl⟩
    · rw [if_neg hv]
      have hvmem : v ∈ if entry.contains v then entry else entry ++ [v] := by
        split
        · rename_i hc
          exact List.elem_iff.mp hc
        · simp
      constructor
      · intro hemp
        have hvf : v ∈ (if entry.contains v then entry else entry ++ [v]).filter
            fun x => !(x == "All") := by
          rw [List.mem_filter]
          exact ⟨hvmem, by simp [hv]⟩
        rw [hemp] at hvf
        exact absurd hvf (List.not_mem_nil v)
      · intro hmem
        exfalso
        rw [List.mem_filter] at hmem
        simp at hmem
  | unselect v =>
    rw [stepEntry, unselectEvent]
    by_cases hemp : entry.erase v = []
    · simp only [hemp, List.isEmpty_nil, if_true]
      exact ⟨by simp, fun _ => rfl⟩
    · have hE : (entry.erase v).isEmpty = false := by
        simp [List.isEmpty_iff, hemp]
      simp only [hE, Bool.false_eq_true, if_false]
      refine ⟨hemp, ?_⟩
      intro hmem
      have hin : "All" ∈ entry := List.mem_of_mem_erase hmem
      have heq : entry = ["All"] := hall hin
      rw [heq]
      by_cases hv : v = "All"
      · exfalso
        rw [heq, hv] at hemp
        simp [List.erase_cons] at hemp
      · rw [List.erase_cons]
        simp [show ¬("All" : String) = v from fun hh => hv hh.symm]

theorem runEvents_preserves (entry : List String) (es : List FilterEvent)
    (h : entryInvariant entry) : entryInvariant (runEvents entry es) := by
  induction es generalizing entry with
  | nil => exact h
  | cons e rest ih => exact ih _ (stepEntry_preserves entry e h)

/-- C8: under the select2 handlers a filter entry is never empty and the
sentinel `All` is mutually exclusive with concrete tokens — the invariant
holds after any sequence of selection events (in particular starting from
the initial `['All']`); selecting a concrete token removes `All` from the
entry; selecting `All` resets the entry to exactly `['All']`; and
unselecting the last remaining token reverts the entry to `['All']`. -/
theorem filterEntry_invariant_spec :
    (∀ (entry : List String) (es : List FilterEvent),
      entryInvariant entry → entryInvariant (runEvents entry es)) ∧
    (∀ es : List FilterEvent, entryInvariant (runEvents ["All"] es)) ∧
    (∀ (entry : List String) (v : String), v ≠ "All" → "All" ∉ selectEvent entry v) ∧
    (∀ entry : List String, selectEvent entry "All" = ["All"]) ∧
    (∀ (entry : List String) (v : String), entry.erase v = [] →
      unselectEvent entry v = ["All"]) := by
  refine ⟨runEvents_preserves, ?_, ?_, ?_, ?_⟩
  · intro es
    exact runEvents_preserves _ es ⟨by simp, fun _ => rfl⟩
  · intro entry v hv hmem
    rw [selectEvent, if_neg hv, List.mem_filter] at hmem
    simp at hmem
  · intro entry
    rw [selectEvent, if_pos rfl]
  · intro entry v h
    rw [unselectEvent]
    simp [h]

/-- Witness for `filterEntry_invariant_spec`. -/
theorem filterEntry_invariant_spec_witness :
    entryInvariant (runEvents ["All"] [FilterEvent.select "Red"]) ∧
    "All" ∉ selectEvent ["All"] "Red" ∧
    unselectEvent ["Red"] "Red" = ["All"] :=
  ⟨filterEntry_invariant_spec.1 ["All"] [FilterEvent.select "Red"] ⟨by simp, fun _ => rfl⟩,
   filterEntry_invariant_spec.2.2.1 ["All"] "Red" (by decide),
   filterEntry_invariant_spec.2.2.2.2 ["Red"] "Red" (by decide)⟩

end ProductViewer
